import Mathlib

/-!
Shallow embedding of `leitor_fatura.py` (Leitor_Fatura repository).

Python strings are modelled as Lean `String`/`List Char` (ASCII scope:
`str.upper`, `\w`, whitespace sets are modelled on their ASCII behaviour).
Python `float` is modelled as `ℚ`; a raising conversion is `Option ℚ`.
The two regexes `DATE_RE` and `AMOUNT_RE` are embedded as direct
backtracking matchers with exactly the regex-engine search order
(leftmost position, greedy quantifiers, first alternative first).
-/

/-! ### Basic string helpers -/

/-- Whitespace characters stripped by Python `str.strip()` (ASCII part). -/
def isPyWs (c : Char) : Bool :=
  c = ' ' || c = '\t' || c = '\n' || c = '\x0d' || c = '\x0b' || c = '\x0c'

/-- Python `str.strip()` on a char list. -/
def pystripL (cs : List Char) : List Char :=
  ((cs.dropWhile isPyWs).reverse.dropWhile isPyWs).reverse

/-- Python `str.strip()`. -/
def pystrip (s : String) : String :=
  String.mk (pystripL s.data)

/-- Python `str.upper()` (ASCII). -/
def upperS (s : String) : String :=
  String.mk (s.data.map Char.toUpper)

/-- Python `pat in s` substring test (`containsSub pat s.data`). -/
def containsSub (pat : List Char) : List Char → Bool
  | [] => pat.isEmpty
  | c :: t => pat.isPrefixOf (c :: t) || containsSub pat t

/-- Python `str.splitlines()` restricted to the `\n`, `\r\n`, `\r` breaks. -/
def splitlinesL : List Char → List (List Char)
  | [] => []
  | '\x0d' :: '\n' :: rest => [] :: splitlinesL rest
  | '\n' :: rest => [] :: splitlinesL rest
  | '\x0d' :: rest => [] :: splitlinesL rest
  | c :: rest =>
    match splitlinesL rest with
    | [] => [[c]]
    | l :: ls => (c :: l) :: ls

def splitlines (s : String) : List String :=
  (splitlinesL s.data).map String.mk

/-- One step of `re.sub(r"[ \t]+", " ", s)`: collapse space/tab runs. -/
def collapseWs : List Char → List Char
  | [] => []
  | [c] => if c = ' ' || c = '\t' then [' '] else [c]
  | c :: c2 :: rest =>
    if c = ' ' || c = '\t' then
      if c2 = ' ' || c2 = '\t' then collapseWs (c2 :: rest)
      else ' ' :: collapseWs (c2 :: rest)
    else c :: collapseWs (c2 :: rest)

/-- `normalize_text`: collapse `[ \t]+` runs to one space, then strip. -/
def normalize_text (s : String) : String :=
  String.mk (pystripL (collapseWs s.data))

/-! ### Money parser (`br_money_to_float`) -/

/-- The rational `m / 10^k`, the value of a decimal numeral with mantissa
`m` and `k` fractional digits. -/
def mkQ (m : Int) (k : Nat) : ℚ :=
  (m : ℚ) / (10 : ℚ) ^ k

/-- Numeric value of a digit list (most significant first). -/
def digitsVal : List Char → Nat
  | [] => 0
  | c :: rest => (c.toNat - '0'.toNat) * 10 ^ rest.length + digitsVal rest

/-- Python `float(s)` on plain decimal numerals: optional sign, digits,
optional point, digits (at least one digit overall); `None` models the
`ValueError` raised on anything else.  Exponents, `inf`/`nan` and `_`
separators never occur in this program's inputs and are not modelled. -/
def pyFloat (cs : List Char) : Option ℚ :=
  let cs := pystripL cs
  let (neg, cs) :=
    match cs with
    | '-' :: rest => (true, rest)
    | '+' :: rest => (false, rest)
    | _ => (false, cs)
  let intPart := cs.takeWhile Char.isDigit
  let rest := cs.dropWhile Char.isDigit
  match rest with
  | [] =>
    if intPart.isEmpty then none
    else some (if neg then -mkQ (digitsVal intPart) 0 else mkQ (digitsVal intPart) 0)
  | '.' :: frac =>
    if frac.all Char.isDigit && !(intPart.isEmpty && frac.isEmpty) then
      let m : Int := digitsVal intPart * 10 ^ frac.length + digitsVal frac
      some (if neg then -mkQ m frac.length else mkQ m frac.length)
    else none
  | _ => none

/-- Python `s.strip("()")`: drop leading and trailing parenthesis chars. -/
def stripParens (cs : List Char) : List Char :=
  ((cs.dropWhile fun c => c = '(' || c = ')').reverse.dropWhile
      fun c => c = '(' || c = ')').reverse

/-- `s.replace("R$", "")`. -/
def removeRS : List Char → List Char
  | 'R' :: '$' :: rest => removeRS rest
  | c :: rest => c :: removeRS rest
  | [] => []

/-- `s.replace("BRL", "")`. -/
def removeBRL : List Char → List Char
  | 'B' :: 'R' :: 'L' :: rest => removeBRL rest
  | c :: rest => c :: removeBRL rest
  | [] => []

/-- `s.replace(".", "").replace(",", ".")`. -/
def dotsCommas : List Char → List Char
  | [] => []
  | '.' :: rest => dotsCommas rest
  | ',' :: rest => '.' :: dotsCommas rest
  | c :: rest => c :: dotsCommas rest

/-- `br_money_to_float`: Brazilian money string to value; `none` models a
raised `ValueError`. -/
def br_money_to_float (s : String) : Option ℚ :=
  let cs := pystripL s.data
  let is_paren : Bool := cs.head? = some '(' && cs.getLast? = some ')'
  let cs := stripParens cs
  let cs := pystripL (removeBRL (removeRS cs))
  let cs := dotsCommas cs
  (pyFloat cs).map fun v => if is_paren then -v else v

/-! ### `DATE_RE` — `\b(\d{2}/\d{2})(?:/(\d{2,4}))?\b` -/

/-- Python `\w` (ASCII part): letters, digits, underscore. -/
def isWordChar (c : Char) : Bool :=
  c.isAlphanum || c = '_'

/-- `\b` before the match: previous char (if any) must be non-word
(the first matched char is a digit, hence a word char). -/
def boundaryBefore : Option Char → Bool
  | none => true
  | some c => !isWordChar c

/-- `\b` after a digit: next char (if any) must be non-word. -/
def boundaryAfterDigit : List Char → Bool
  | [] => true
  | c :: _ => !isWordChar c

/-- The optional year group `(?:/(\d{2,4}))?\b`, greedy: 4 digits first,
then 3, then 2; each candidate must be followed by a word boundary. -/
def tryYear : List Char → Option (List Char)
  | '/' :: a :: b :: c :: d :: r4 =>
    if a.isDigit && b.isDigit && c.isDigit && d.isDigit && boundaryAfterDigit r4 then
      some [a, b, c, d]
    else if a.isDigit && b.isDigit && c.isDigit && boundaryAfterDigit (d :: r4) then
      some [a, b, c]
    else if a.isDigit && b.isDigit && boundaryAfterDigit (c :: d :: r4) then
      some [a, b]
    else none
  | '/' :: a :: b :: c :: r3 =>
    if a.isDigit && b.isDigit && c.isDigit && boundaryAfterDigit r3 then
      some [a, b, c]
    else if a.isDigit && b.isDigit && boundaryAfterDigit (c :: r3) then
      some [a, b]
    else none
  | '/' :: a :: b :: r2 =>
    if a.isDigit && b.isDigit && boundaryAfterDigit r2 then some [a, b] else none
  | _ => none

/-- Attempt `DATE_RE` at the head of `cs` (`prev` is the char just before,
for the leading `\b`).  Returns groups 1 (`dd/mm`) and 2 (the year). -/
def matchDateAt (prev : Option Char) (cs : List Char) :
    Option (List Char × Option (List Char)) :=
  match cs with
  | d1 :: d2 :: '/' :: d3 :: d4 :: rest =>
    if boundaryBefore prev && d1.isDigit && d2.isDigit && d3.isDigit && d4.isDigit then
      match tryYear rest with
      | some y => some ([d1, d2, '/', d3, d4], some y)
      | none =>
        if boundaryAfterDigit rest then some ([d1, d2, '/', d3, d4], none) else none
    else none
  | _ => none

/-- `DATE_RE.search`: leftmost match wins. -/
def dateSearch (prev : Option Char) : List Char → Option (List Char × Option (List Char))
  | [] => none
  | c :: rest =>
    match matchDateAt prev (c :: rest) with
    | some g => some g
    | none => dateSearch (some c) rest

/-- Reassemble `find_best_date`'s result from the regex groups: 2-digit
years are prefixed with `"20"`. -/
def fmtDate (g : List Char × Option (List Char)) : String :=
  match g.2 with
  | none => String.mk g.1
  | some y =>
    String.mk (g.1 ++ '/' :: (if y.length = 2 then '2' :: '0' :: y else y))

/-- `find_best_date`. -/
def find_best_date (line : String) : Option String :=
  (dateSearch none line.data).map fmtDate

/-- A `DATE_RE` token starting at position `i` of the full line: the char
before position `i` (none at the line start) supplies the leading word
boundary.  This is the positional notion of "a date-shaped token occurs
at `i`" used to state first-match-wins. -/
def matchDateAtPos (prev : Option Char) (cs : List Char) (i : Nat) :
    Option (List Char × Option (List Char)) :=
  matchDateAt (if i = 0 then prev else (cs.take i).getLast?) (cs.drop i)

/-! ### `AMOUNT_RE` — `(\()?(-)?(\d{1,3}(?:\.\d{3})*,\d{2}|\d+,\d{2})(\))?` -/

/-- Greedily consume `(?:\.\d{3})*`. -/
def dotGroups : List Char → List Char × List Char
  | '.' :: a :: b :: c :: rest =>
    if a.isDigit && b.isDigit && c.isDigit then
      let p := dotGroups rest
      ('.' :: a :: b :: c :: p.1, p.2)
    else ([], '.' :: a :: b :: c :: rest)
  | cs => ([], cs)

/-- After the integer part, match `(?:\.\d{3})*,\d{2}` (no backtracking is
needed into the dot groups: dropping one leaves the position at a `.`,
which can never match the following `,`). -/
def tailAlt1 (cs : List Char) : Option (List Char × List Char) :=
  let p := dotGroups cs
  match p.2 with
  | ',' :: a :: b :: rest =>
    if a.isDigit && b.isDigit then some (p.1 ++ [',', a, b], rest) else none
  | _ => none

/-- The 1-digit case of the first alternative: `\d(?:\.\d{3})*,\d{2}`. -/
def alt1len1 : List Char → Option (List Char × List Char)
  | a :: rest =>
    if a.isDigit then
      match tailAlt1 rest with
      | some (t, r) => some (a :: t, r)
      | none => none
    else none
  | [] => none

/-- The 2-then-1-digit cases of the first alternative. -/
def alt1len2 (cs : List Char) : Option (List Char × List Char) :=
  match cs with
  | a :: b :: rest =>
    if a.isDigit && b.isDigit then
      match tailAlt1 rest with
      | some (t, r) => some (a :: b :: t, r)
      | none => alt1len1 cs
    else alt1len1 cs
  | _ => alt1len1 cs

/-- First alternative `\d{1,3}(?:\.\d{3})*,\d{2}` with `\d{1,3}` greedy:
try 3 digits, then 2, then 1. -/
def alt1 (cs : List Char) : Option (List Char × List Char) :=
  match cs with
  | a :: b :: c :: rest =>
    if a.isDigit && b.isDigit && c.isDigit then
      match tailAlt1 rest with
      | some (t, r) => some (a :: b :: c :: t, r)
      | none => alt1len2 cs
    else alt1len2 cs
  | _ => alt1len2 cs

/-- Second alternative `\d+,\d{2}` (`\d+` greedy; no backtracking is
needed: giving digits back leaves the position at a digit, never a `,`). -/
def alt2 (cs : List Char) : Option (List Char × List Char) :=
  let ds := cs.takeWhile Char.isDigit
  let rest := cs.dropWhile Char.isDigit
  if ds.isEmpty then none
  else
    match rest with
    | ',' :: a :: b :: r =>
      if a.isDigit && b.isDigit then some (ds ++ [',', a, b], r) else none
    | _ => none

/-- The `num` group: first alternative, then the second. -/
def matchNum (cs : List Char) : Option (List Char × List Char) :=
  (alt1 cs).orElse fun _ => alt2 cs

/-- `(-)?` then `num`. -/
def matchSignNum : List Char → Option (List Char × List Char)
  | '-' :: rest => (matchNum rest).map fun p => ('-' :: p.1, p.2)
  | cs => matchNum cs

/-- Trailing `(\))?`. -/
def consumeClose (tok after : List Char) : List Char × List Char :=
  match after with
  | ')' :: r => (tok ++ [')'], r)
  | _ => (tok, after)

/-- Attempt `AMOUNT_RE` at the head of `cs`; returns (group 0, rest). -/
def matchAmountAt (cs : List Char) : Option (List Char × List Char) :=
  match cs with
  | '(' :: rest =>
    (matchSignNum rest).map fun p => consumeClose ('(' :: p.1) p.2
  | _ => (matchSignNum cs).map fun p => consumeClose p.1 p.2

/-- `AMOUNT_RE.finditer`: leftmost, non-overlapping scan; `fuel` bounds the
recursion (every step consumes at least one character). -/
def amountScan : Nat → List Char → List (List Char)
  | 0, _ => []
  | _ + 1, [] => []
  | fuel + 1, c :: rest =>
    match matchAmountAt (c :: rest) with
    | some (tok, after) => tok :: amountScan fuel after
    | none => amountScan fuel rest

/-- All `AMOUNT_RE` matches of a line, in order. -/
def amountMatches (line : String) : List (List Char) :=
  amountScan line.data.length line.data

/-- `find_best_amount`: take the last match of the line and convert it;
a failing conversion is reported as no amount. -/
def find_best_amount (line : String) : Option ℚ :=
  match (amountMatches line).getLast? with
  | none => none
  | some raw => br_money_to_float (String.mk raw)

/-! ### Keyword matcher and line extraction engine -/

/-- `guess_app_from_line`: first keyword (list order) whose uppercased
text occurs in the uppercased line; returns it uppercased. -/
def guess_app_from_line (line : String) (keywords : List String) : Option String :=
  match keywords with
  | [] => none
  | kw :: rest =>
    if containsSub (upperS kw).data (upperS line).data then some (upperS kw)
    else guess_app_from_line line rest

/-- One extracted record (`Lancamento`). -/
structure Lancamento where
  app : String
  data : String
  descricao : String
  valor : ℚ
  pagina : Nat
  deriving Repr, DecidableEq

/-- `AMOUNT_RE.sub("", line, count=1)`: delete the first amount match. -/
def subFirstAmountL : List Char → List Char
  | [] => []
  | c :: rest =>
    match matchAmountAt (c :: rest) with
    | some (_, after) => after
    | none => c :: subFirstAmountL rest

/-- The description-cleanup attempt of `extract_candidates_from_text`
(lines 160–171): delete the first amount match, but fall back to the full
line when the stripped result is shorter than 3 characters.  The engine
computes this value and then discards it. -/
def descricaoAttempt (line : String) : String :=
  if amountMatches line ≠ [] then
    let d := String.mk (subFirstAmountL line.data)
    if (pystrip d).length < 3 then line else d
  else line

/-- `extract_candidates_from_text`, line by line, exactly as the source:
normalize, skip empty, keyword-match, date (best effort), amount
(required), then emit with `descricao := line` (the cleanup attempt is
computed and discarded, as at source line 177). -/
def extract_candidates_from_text (text : String) (page_index : Nat)
    (keywords : List String) : List Lancamento :=
  (splitlines text).flatMap fun raw =>
    let line := normalize_text raw
    if line = "" then []
    else
      match guess_app_from_line line keywords with
      | none => []
      | some app =>
        let data := find_best_date line
        match find_best_amount line with
        | none => []
        | some valor =>
          let _descricao := descricaoAttempt line
          [{ app := app, data := data.getD "", descricao := line,
             valor := valor, pagina := page_index + 1 }]

/-- The simplified engine of the spec's §9: identical but for omitting
the discarded description-cleanup computation. -/
def extract_simple (text : String) (page_index : Nat)
    (keywords : List String) : List Lancamento :=
  (splitlines text).flatMap fun raw =>
    let line := normalize_text raw
    if line = "" then []
    else
      match guess_app_from_line line keywords with
      | none => []
      | some app =>
        let data := find_best_date line
        match find_best_amount line with
        | none => []
        | some valor =>
          [{ app := app, data := data.getD "", descricao := line,
             valor := valor, pagina := page_index + 1 }]

/-! ### Totals aggregator (`write_xlsx`, lines 245–255) -/

/-- `totals[k] = totals.get(k, 0.0) + v` on an insertion-ordered dict. -/
def addTotal (d : List (String × ℚ)) (k : String) (v : ℚ) : List (String × ℚ) :=
  match d with
  | [] => [(k, v)]
  | (k', v') :: rest =>
    if k' = k then (k', v' + v) :: rest else (k', v') :: addTotal rest k v

/-- The `totals` dict of `write_xlsx`. -/
def totalsDict (lancs : List Lancamento) : List (String × ℚ) :=
  lancs.foldl (fun d l => addTotal d l.app l.valor) []

/-- `totals.get(key, 0.0)`. -/
def lookupTotal (d : List (String × ℚ)) (k : String) : ℚ :=
  match d with
  | [] => 0
  | (k', v) :: rest => if k' = k then v else lookupTotal rest k

/-- `sum(totals.values())`. -/
def sumVals (d : List (String × ℚ)) : ℚ :=
  (d.map Prod.snd).sum

/-- Round half to even on `ℤ`-valued targets (Python's `round`). -/
def rne (q : ℚ) : ℤ :=
  let f := ⌊q⌋
  if q - f < 1 / 2 then f
  else if 1 / 2 < q - f then f + 1
  else if f % 2 = 0 then f else f + 1

/-- Python `round(x, 2)`. -/
def round2 (q : ℚ) : ℚ :=
  (rne (q * 100) : ℚ) / 100

/-- The per-keyword rows of the `Resumo` sheet (term, rounded total). -/
def resumoRows (lancs : List Lancamento) (keywords : List String) :
    List (String × ℚ) :=
  keywords.map fun kw =>
    (upperS kw, round2 (lookupTotal (totalsDict lancs) (upperS kw)))

/-- `total_geral = sum(totals.values())` (the grand-total row holds
`round2` of this). -/
def total_geral (lancs : List Lancamento) : ℚ :=
  sumVals (totalsDict lancs)

/-! ### Keyword persistence operations

`add_keyword`/`remove_keyword` are modelled on the loaded keyword list;
the returned `Bool` records whether `save_keywords` was called, and
`Except.error` models the raised `ValueError` (no save happens then). -/

def add_keyword (kws : List String) (term : String) :
    Except String (List String × Bool) :=
  let k := pystrip term
  if k = "" then Except.error "Keyword vazia."
  else if upperS k ∈ kws.map upperS then Except.ok (kws, false)
  else Except.ok (kws ++ [k], true)

def remove_keyword (kws : List String) (term : String) :
    Except String (List String × Bool) :=
  let k := pystrip term
  if k = "" then Except.error "Keyword vazia."
  else Except.ok (kws.filter fun x => upperS x != upperS k, true)

/-! ### Spec-side definitions (from the claims' words) -/

/-- Amounts of the records carrying exactly the term `t`, summed. -/
def sumFilterTerm (lancs : List Lancamento) (t : String) : ℚ :=
  ((lancs.filter fun l => l.app == t).map fun l => l.valor).sum

/-- The output shapes C5 claims for `find_best_date`: `dd/mm` or a
4-digit-year `dd/mm/yyyy` (2-digit years are expanded to `20yy`). -/
def claimedDateShape (s : String) : Bool :=
  match s.data with
  | [a, b, '/', c, d] => a.isDigit && b.isDigit && c.isDigit && d.isDigit
  | [a, b, '/', c, d, '/', e, f, g, h] =>
    a.isDigit && b.isDigit && c.isDigit && d.isDigit &&
    e.isDigit && f.isDigit && g.isDigit && h.isDigit
  | _ => false

/-- The amended output shapes: the year may also keep 3 digits. -/
def amendedDateShape (s : String) : Bool :=
  match s.data with
  | [a, b, '/', c, d] => a.isDigit && b.isDigit && c.isDigit && d.isDigit
  | [a, b, '/', c, d, '/', e, f, g] =>
    a.isDigit && b.isDigit && c.isDigit && d.isDigit &&
    e.isDigit && f.isDigit && g.isDigit
  | [a, b, '/', c, d, '/', e, f, g, h] =>
    a.isDigit && b.isDigit && c.isDigit && d.isDigit &&
    e.isDigit && f.isDigit && g.isDigit && h.isDigit
  | _ => false

/-- The concrete page text of the spec's end-to-end scenario (§8). -/
def scenarioText : String :=
  "05/03 UBER*TRIP 18,50\n06/03 99POP 12,00\nmarketing text mentioning uber with no price"

/-- The concrete keyword set of the spec's end-to-end scenario (§8). -/
def scenarioKws : List String :=
  ["UBER", "99"]

/-! ## Lemmas -/

theorem lookupTotal_addTotal (d : List (String × ℚ)) (k k' : String) (v : ℚ) :
    lookupTotal (addTotal d k' v) k =
      lookupTotal d k + (if k' = k then v else 0) := by
  induction d with
  | nil => by_cases h : k' = k <;> simp [addTotal, lookupTotal, h]
  | cons p rest ih =>
    obtain ⟨k₀, v₀⟩ := p
    by_cases h₀ : k₀ = k'
    · subst h₀
      by_cases h : k₀ = k
      · simp [addTotal, lookupTotal, h]
      · simp [addTotal, lookupTotal, h]
    · by_cases h : k₀ = k
      · subst h
        have : ¬ k' = k₀ := fun hh => h₀ hh.symm
        simp [addTotal, lookupTotal, h₀, this]
      · simp [addTotal, lookupTotal, h₀, h, ih]

theorem sumVals_addTotal (d : List (String × ℚ)) (k : String) (v : ℚ) :
    sumVals (addTotal d k v) = sumVals d + v := by
  induction d with
  | nil => simp [addTotal, sumVals]
  | cons p rest ih =>
    obtain ⟨k₀, v₀⟩ := p
    simp [sumVals] at ih
    by_cases h : k₀ = k <;> simp [addTotal, sumVals, h]
    · ring
    · rw [ih]; ring

theorem sumFilterTerm_cons (l : Lancamento) (rest : List Lancamento) (k : String) :
    sumFilterTerm (l :: rest) k =
      (if l.app = k then l.valor else 0) + sumFilterTerm rest k := by
  by_cases h : l.app = k <;> simp [sumFilterTerm, List.filter_cons, h]

theorem lookupTotal_foldl (lancs : List Lancamento) (d : List (String × ℚ)) (k : String) :
    lookupTotal (lancs.foldl (fun d l => addTotal d l.app l.valor) d) k =
      lookupTotal d k + sumFilterTerm lancs k := by
  induction lancs generalizing d with
  | nil => simp [sumFilterTerm]
  | cons l rest ih =>
    simp only [List.foldl_cons]
    rw [ih, lookupTotal_addTotal, sumFilterTerm_cons]
    ring

/-- The dict lookup of `write_xlsx` equals the sum of the matching
records' amounts. -/
theorem lookupTotal_totalsDict (lancs : List Lancamento) (k : String) :
    lookupTotal (totalsDict lancs) k = sumFilterTerm lancs k := by
  have h := lookupTotal_foldl lancs [] k
  simpa [totalsDict, lookupTotal] using h

theorem sumVals_foldl (lancs : List Lancamento) (d : List (String × ℚ)) :
    sumVals (lancs.foldl (fun d l => addTotal d l.app l.valor) d) =
      sumVals d + (lancs.map fun l => l.valor).sum := by
  induction lancs generalizing d with
  | nil => simp
  | cons l rest ih =>
    simp only [List.foldl_cons, List.map_cons, List.sum_cons]
    rw [ih, sumVals_addTotal]
    ring

/-- `total_geral` sums the amounts of all records. -/
theorem total_geral_eq_sum (lancs : List Lancamento) :
    total_geral lancs = (lancs.map fun l => l.valor).sum := by
  have h := sumVals_foldl lancs []
  simpa [total_geral, totalsDict, sumVals] using h

theorem round2_mkQ2 (m : ℤ) : round2 (mkQ m 2) = mkQ m 2 := by
  have h100 : mkQ m 2 * 100 = (m : ℚ) := by
    unfold mkQ
    have : ((10 : ℚ) ^ (2 : ℕ)) = 100 := by norm_num
    rw [this]
    field_simp
  have hr : rne (mkQ m 2 * 100) = m := by
    rw [h100]
    unfold rne
    simp [Int.floor_intCast]
  unfold round2
  rw [hr]
  unfold mkQ
  norm_num

theorem tryYear_shape (rest : List Char) (y : List Char) (h : tryYear rest = some y) :
    (∃ a b, y = [a, b] ∧ a.isDigit ∧ b.isDigit) ∨
    (∃ a b c, y = [a, b, c] ∧ a.isDigit ∧ b.isDigit ∧ c.isDigit) ∨
    (∃ a b c d, y = [a, b, c, d] ∧ a.isDigit ∧ b.isDigit ∧ c.isDigit ∧ d.isDigit) := by
  unfold tryYear at h
  split at h
  · split_ifs at h with h1 h2 h3
    · injection h with h; subst h
      refine Or.inr (Or.inr ⟨_, _, _, _, rfl, ?_, ?_, ?_, ?_⟩) <;> simp_all
    · injection h with h; subst h
      refine Or.inr (Or.inl ⟨_, _, _, rfl, ?_, ?_, ?_⟩) <;> simp_all
    · injection h with h; subst h
      refine Or.inl ⟨_, _, rfl, ?_, ?_⟩ <;> simp_all
  · split_ifs at h with h1 h2
    · injection h with h; subst h
      refine Or.inr (Or.inl ⟨_, _, _, rfl, ?_, ?_, ?_⟩) <;> simp_all
    · injection h with h; subst h
      refine Or.inl ⟨_, _, rfl, ?_, ?_⟩ <;> simp_all
  · split_ifs at h with h1
    · injection h with h; subst h
      refine Or.inl ⟨_, _, rfl, ?_, ?_⟩ <;> simp_all
  · exact absurd h (by simp)

theorem matchDateAt_shape (prev : Option Char) (cs : List Char)
    (g : List Char × Option (List Char)) (h : matchDateAt prev cs = some g) :
    amendedDateShape (fmtDate g) = true := by
  unfold matchDateAt at h
  split at h
  case h_2 => exact absurd h (by simp)
  case h_1 d1 d2 d3 d4 rest =>
    cases hcond : (boundaryBefore prev && d1.isDigit && d2.isDigit &&
        d3.isDigit && d4.isDigit) with
    | false => rw [hcond] at h; simp at h
    | true =>
      rw [hcond] at h
      simp only [if_true] at h
      simp only [Bool.and_eq_true] at hcond
      obtain ⟨⟨⟨⟨-, hd1⟩, hd2⟩, hd3⟩, hd4⟩ := hcond
      cases hy : tryYear rest with
      | some y =>
        rw [hy] at h
        injection h with h
        subst h
        rcases tryYear_shape rest y hy with ⟨a, b, rfl, ha, hb⟩ |
          ⟨a, b, c, rfl, ha, hb, hc⟩ | ⟨a, b, c, d, rfl, ha, hb, hc, hd⟩ <;>
          simp_all [fmtDate, amendedDateShape]
      | none =>
        rw [hy] at h
        cases hba : boundaryAfterDigit rest with
        | false => rw [hba] at h; simp at h
        | true =>
          rw [hba] at h
          simp only [if_true] at h
          injection h with h
          subst h
          simp_all [fmtDate, amendedDateShape]

theorem dateSearch_shape (cs : List Char) (prev : Option Char)
    (g : List Char × Option (List Char)) (h : dateSearch prev cs = some g) :
    amendedDateShape (fmtDate g) = true := by
  induction cs generalizing prev with
  | nil => exact absurd h (by simp [dateSearch])
  | cons c rest ih =>
    unfold dateSearch at h
    cases hm : matchDateAt prev (c :: rest) with
    | some g' =>
      rw [hm] at h
      injection h with h
      subst h
      exact matchDateAt_shape _ _ _ hm
    | none =>
      rw [hm] at h
      exact ih _ h

/-- Every `some` result of `find_best_date` has one of the amended
date shapes. -/
theorem find_best_date_shape (line : String) (s : String)
    (h : find_best_date line = some s) : amendedDateShape s = true := by
  unfold find_best_date at h
  cases hd : dateSearch none line.data with
  | none => rw [hd] at h; exact absurd h (by simp)
  | some g =>
    rw [hd] at h
    injection h with h
    subst h
    exact dateSearch_shape _ _ _ hd

theorem matchDateAt_nil (prev : Option Char) : matchDateAt prev [] = none :=
  rfl

theorem matchDateAtPos_zero (prev : Option Char) (cs : List Char) :
    matchDateAtPos prev cs 0 = matchDateAt prev cs := by
  simp [matchDateAtPos]

theorem matchDateAtPos_succ (prev : Option Char) (c : Char) (rest : List Char)
    (i : Nat) :
    matchDateAtPos prev (c :: rest) (i + 1) = matchDateAtPos (some c) rest i := by
  cases i with
  | zero => simp [matchDateAtPos]
  | succ i' =>
    cases rest with
    | nil =>
      simp only [matchDateAtPos, List.drop_nil, List.drop_succ_cons]
      rw [matchDateAt_nil, matchDateAt_nil]
    | cons r rr =>
      simp only [matchDateAtPos, List.drop_succ_cons, List.take_succ_cons,
        if_neg (Nat.succ_ne_zero i'), if_neg (Nat.succ_ne_zero (i' + 1))]
      rw [List.getLast?_cons_cons]

/-- The leftmost scan finds no match iff no position hosts a token. -/
theorem dateSearch_none_iff (cs : List Char) (prev : Option Char) :
    dateSearch prev cs = none ↔ ∀ i, matchDateAtPos prev cs i = none := by
  induction cs generalizing prev with
  | nil =>
    constructor
    · intro _ i
      simp [matchDateAtPos, matchDateAt_nil]
    · intro _
      rfl
  | cons c rest ih =>
    unfold dateSearch
    cases hm : matchDateAt prev (c :: rest) with
    | some g =>
      constructor
      · intro h
        exact absurd h (by simp)
      · intro h
        have h0 := h 0
        rw [matchDateAtPos_zero, hm] at h0
        exact absurd h0 (by simp)
    | none =>
      rw [ih (some c)]
      constructor
      · intro h i
        cases i with
        | zero => rw [matchDateAtPos_zero]; exact hm
        | succ i' => rw [matchDateAtPos_succ]; exact h i'
      · intro h i
        have hi := h (i + 1)
        rw [matchDateAtPos_succ] at hi
        exact hi

/-- The leftmost scan returns exactly the token of the first position
hosting one. -/
theorem dateSearch_some_iff (cs : List Char) (prev : Option Char)
    (g : List Char × Option (List Char)) :
    dateSearch prev cs = some g ↔
      ∃ i, matchDateAtPos prev cs i = some g ∧
        ∀ j, j < i → matchDateAtPos prev cs j = none := by
  induction cs generalizing prev with
  | nil =>
    constructor
    · intro h
      exact absurd h (by simp [dateSearch])
    · rintro ⟨i, hi, -⟩
      rw [matchDateAtPos, List.drop_nil, matchDateAt_nil] at hi
      exact absurd hi (by simp)
  | cons c rest ih =>
    unfold dateSearch
    cases hm : matchDateAt prev (c :: rest) with
    | some g0 =>
      constructor
      · intro h
        refine ⟨0, ?_, fun j hj => absurd hj (Nat.not_lt_zero j)⟩
        rw [matchDateAtPos_zero, hm]
        exact h
      · rintro ⟨i, hi, hfirst⟩
        cases i with
        | zero => rw [matchDateAtPos_zero, hm] at hi; exact hi
        | succ i' =>
          have h0 := hfirst 0 (Nat.succ_pos i')
          rw [matchDateAtPos_zero, hm] at h0
          exact absurd h0 (by simp)
    | none =>
      rw [ih (some c)]
      constructor
      · rintro ⟨i, hi, hfirst⟩
        refine ⟨i + 1, ?_, ?_⟩
        · rw [matchDateAtPos_succ]; exact hi
        · intro j hj
          cases j with
          | zero => rw [matchDateAtPos_zero]; exact hm
          | succ j' =>
            rw [matchDateAtPos_succ]
            exact hfirst j' (by omega)
      · rintro ⟨i, hi, hfirst⟩
        cases i with
        | zero =>
          rw [matchDateAtPos_zero, hm] at hi
          exact absurd hi (by simp)
        | succ i' =>
          rw [matchDateAtPos_succ] at hi
          refine ⟨i', hi, fun j hj => ?_⟩
          have hj1 := hfirst (j + 1) (by omega)
          rw [matchDateAtPos_succ] at hj1
          exact hj1

/-- Any record of the line extraction engine comes from a source line
that passed all three gates, and its fields are the gates' outputs. -/
theorem mem_extract {text : String} {page : Nat} {keywords : List String}
    {l : Lancamento} (hl : l ∈ extract_candidates_from_text text page keywords) :
    ∃ raw, raw ∈ splitlines text ∧
      normalize_text raw ≠ "" ∧
      guess_app_from_line (normalize_text raw) keywords = some l.app ∧
      find_best_amount (normalize_text raw) = some l.valor ∧
      l.data = (find_best_date (normalize_text raw)).getD "" ∧
      l.descricao = normalize_text raw ∧
      l.pagina = page + 1 := by
  unfold extract_candidates_from_text at hl
  rw [List.mem_flatMap] at hl
  obtain ⟨raw, hraw, hmem⟩ := hl
  refine ⟨raw, hraw, ?_⟩
  by_cases hline : normalize_text raw = ""
  · simp [hline] at hmem
  · rw [if_neg hline] at hmem
    cases hg : guess_app_from_line (normalize_text raw) keywords with
    | none => rw [hg] at hmem; simp at hmem
    | some app =>
      rw [hg] at hmem
      cases ha : find_best_amount (normalize_text raw) with
      | none => rw [ha] at hmem; simp at hmem
      | some valor =>
        rw [ha] at hmem
        simp only [List.mem_singleton] at hmem
        subst hmem
        exact ⟨hline, rfl, rfl, rfl, rfl, rfl⟩

theorem round2_zero : round2 0 = 0 := by
  have h0 : mkQ 0 2 = 0 := by simp [mkQ]
  calc round2 0 = round2 (mkQ 0 2) := by rw [h0]
    _ = mkQ 0 2 := round2_mkQ2 0
    _ = 0 := h0

/-! ## Claims -/

/-- C1: for the keyword set `["UBER","99"]` and the single scenario page
(`"05/03 UBER*TRIP 18,50"`, `"06/03 99POP 12,00"`, and a marketing line
with no price), the engine produces exactly 2 records, the aggregator
assigns UBER the total 18.50 and 99 the total 12.00, and the grand total
is 30.50. -/
theorem claim_C1 :
    (extract_candidates_from_text scenarioText 0 scenarioKws).length = 2 ∧
    resumoRows (extract_candidates_from_text scenarioText 0 scenarioKws) scenarioKws =
      [("UBER", (18.50 : ℚ)), ("99", (12.00 : ℚ))] ∧
    total_geral (extract_candidates_from_text scenarioText 0 scenarioKws) = (30.50 : ℚ) ∧
    round2 (total_geral (extract_candidates_from_text scenarioText 0 scenarioKws)) =
      (30.50 : ℚ) := by
  have hrec : extract_candidates_from_text scenarioText 0 scenarioKws =
      [⟨"UBER", "05/03", "05/03 UBER*TRIP 18,50", mkQ 1850 2, 1⟩,
       ⟨"99", "06/03", "06/03 99POP 12,00", mkQ 1200 2, 1⟩] := rfl
  have hrows : resumoRows (extract_candidates_from_text scenarioText 0 scenarioKws)
      scenarioKws = [("UBER", round2 (mkQ 1850 2)), ("99", round2 (mkQ 1200 2))] := rfl
  have ht : total_geral (extract_candidates_from_text scenarioText 0 scenarioKws) =
      mkQ 1850 2 + mkQ 1200 2 := by
    rw [total_geral_eq_sum, hrec]
    simp
  have hsum : mkQ 1850 2 + mkQ 1200 2 = mkQ 3050 2 := by
    unfold mkQ
    norm_num
  refine ⟨by rw [hrec]; rfl, ?_, ?_, ?_⟩
  · rw [hrows, round2_mkQ2, round2_mkQ2]
    norm_num [mkQ]
  · rw [ht, hsum]
    norm_num [mkQ]
  · rw [ht, hsum, round2_mkQ2]
    norm_num [mkQ]

/-- C2: the summary maps each configured keyword (uppercased) to the
2-decimal-rounded sum of amounts of the records carrying that term (0
when none does), the grand total sums the amounts of all records whatever
their term, and the two can differ when a record's term is not
configured. -/
theorem claim_C2 :
    (∀ (lancs : List Lancamento) (keywords : List String),
      resumoRows lancs keywords =
        keywords.map fun kw => (upperS kw, round2 (sumFilterTerm lancs (upperS kw)))) ∧
    (∀ lancs : List Lancamento, total_geral lancs = (lancs.map fun l => l.valor).sum) ∧
    total_geral [⟨"IFOOD", "", "ifood 5,00", 5, 1⟩] ≠
      ((resumoRows [⟨"IFOOD", "", "ifood 5,00", 5, 1⟩] ["UBER"]).map Prod.snd).sum := by
  refine ⟨?_, total_geral_eq_sum, ?_⟩
  · intro lancs keywords
    unfold resumoRows
    simp only [lookupTotal_totalsDict]
  · have h1 : total_geral [⟨"IFOOD", "", "ifood 5,00", (5 : ℚ), 1⟩] = 5 := by
      rw [total_geral_eq_sum]
      simp
    have h2 : resumoRows [⟨"IFOOD", "", "ifood 5,00", (5 : ℚ), 1⟩] ["UBER"] =
        [("UBER", round2 0)] := rfl
    rw [h1, h2, round2_zero]
    norm_num

/-- C3: the keyword matcher returns the uppercase of the first keyword in
list order whose text occurs case-insensitively in the line, `none` when
no keyword occurs; with set `["99","UBER"]` and a line where UBER appears
first, `99` still wins by list order. -/
theorem claim_C3 :
    (∀ (line : String) (keywords : List String),
      guess_app_from_line line keywords =
        (keywords.find? fun kw =>
          containsSub (upperS kw).data (upperS line).data).map upperS) ∧
    guess_app_from_line "06/03 UBER via 99POP 12,00" ["99", "UBER"] = some "99" := by
  constructor
  · intro line keywords
    induction keywords with
    | nil => rfl
    | cons kw rest ih =>
      cases h : containsSub (upperS kw).data (upperS line).data with
      | true => simp [guess_app_from_line, h, List.find?_cons_of_pos]
      | false => simp [guess_app_from_line, h, List.find?_cons_of_neg, ih]
  · decide

/-- C4: the amount extractor converts the last `AMOUNT_RE` match of the
line with the money parser (`25.50` on the spec's example), and yields
nothing — it is total, never raising — when no token matches or the
conversion fails. -/
theorem claim_C4 :
    (∀ line : String,
      find_best_amount line =
        ((amountMatches line).getLast?).bind fun raw =>
          br_money_to_float (String.mk raw)) ∧
    find_best_amount "ref 10,00 UBER*TRIP 25,50" = some (25.50 : ℚ) ∧
    (∀ line : String, amountMatches line = [] → find_best_amount line = none) := by
  refine ⟨?_, ?_, ?_⟩
  · intro line
    cases h : (amountMatches line).getLast? <;> simp [find_best_amount, h]
  · have h : find_best_amount "ref 10,00 UBER*TRIP 25,50" = some (mkQ 2550 2) := rfl
    rw [h]
    norm_num [mkQ]
  · intro line h
    simp [find_best_amount, h]

/-- C4 witness: a line with no monetary token yields no amount. -/
theorem claim_C4_witness : find_best_amount "marketing text" = none :=
  claim_C4.2.2 "marketing text" (by decide)

/-- C5 counterexample: `DATE_RE` accepts 3-digit years, so on
`"01/02/345"` the extractor returns `"01/02/345"`, which is none of the
claimed shapes `dd/mm`, `dd/mm/20yy`, `dd/mm/yyyy`. -/
theorem claim_C5_counterexample :
    find_best_date "01/02/345" = some "01/02/345" ∧
    claimedDateShape "01/02/345" = false :=
  ⟨by decide, by decide⟩

/-- C5 (amended): for every line, any returned date comes from the token
at the first position of the line hosting a date-shaped token (all
earlier positions host none), with the groups reassembled as `dd/mm`, or
`dd/mm/20yy` when the year has 2 digits, or `dd/mm/` followed by the 3- or
4-digit year as found; the extractor returns nothing exactly when no
position of the line hosts a date-shaped token; and all outputs keep the
amended shapes (`"31/01/26"` ↦ `"31/01/2026"`, `"05/03 06/04"` ↦ first
token `"05/03"`, no date in `"UBER 12,00"`). -/
theorem claim_C5 :
    (∀ line s : String,
      find_best_date line = some s →
      ∃ (i : Nat) (ddmm : List Char) (oy : Option (List Char)),
        matchDateAtPos none line.data i = some (ddmm, oy) ∧
        (∀ j, j < i → matchDateAtPos none line.data j = none) ∧
        ((oy = none ∧ s = String.mk ddmm) ∨
         (∃ y, oy = some y ∧ y.length = 2 ∧
           s = String.mk (ddmm ++ '/' :: '2' :: '0' :: y)) ∨
         (∃ y, oy = some y ∧ y.length ≠ 2 ∧ s = String.mk (ddmm ++ '/' :: y)))) ∧
    (∀ line : String,
      find_best_date line = none ↔ ∀ i, matchDateAtPos none line.data i = none) ∧
    (∀ line s : String, find_best_date line = some s → amendedDateShape s = true) ∧
    find_best_date "31/01/26" = some "31/01/2026" ∧
    find_best_date "05/03 06/04" = some "05/03" ∧
    find_best_date "UBER 12,00" = none := by
  refine ⟨?_, ?_, find_best_date_shape, by decide, by decide, by decide⟩
  · intro line s h
    unfold find_best_date at h
    cases hd : dateSearch none line.data with
    | none => rw [hd] at h; exact absurd h (by simp)
    | some g =>
      rw [hd] at h
      injection h with h
      obtain ⟨i, hi, hfirst⟩ := (dateSearch_some_iff line.data none g).mp hd
      obtain ⟨ddmm, oy⟩ := g
      refine ⟨i, ddmm, oy, hi, hfirst, ?_⟩
      subst h
      cases oy with
      | none => exact Or.inl ⟨rfl, rfl⟩
      | some y =>
        by_cases hy : y.length = 2
        · exact Or.inr (Or.inl ⟨y, rfl, hy, by simp [fmtDate, hy]⟩)
        · exact Or.inr (Or.inr ⟨y, rfl, hy, by simp [fmtDate, hy]⟩)
  · intro line
    unfold find_best_date
    constructor
    · intro h
      exact (dateSearch_none_iff line.data none).mp (Option.map_eq_none'.mp h)
    · intro h
      rw [(dateSearch_none_iff line.data none).mpr h]
      rfl

/-- C5 witness: the first-token-with-expansion characterization applied
at the concrete input `"31/01/26"`. -/
theorem claim_C5_witness :
    ∃ (i : Nat) (ddmm : List Char) (oy : Option (List Char)),
      matchDateAtPos none "31/01/26".data i = some (ddmm, oy) ∧
      (∀ j, j < i → matchDateAtPos none "31/01/26".data j = none) ∧
      ((oy = none ∧ "31/01/2026" = String.mk ddmm) ∨
       (∃ y, oy = some y ∧ y.length = 2 ∧
         "31/01/2026" = String.mk (ddmm ++ '/' :: '2' :: '0' :: y)) ∨
       (∃ y, oy = some y ∧ y.length ≠ 2 ∧
         "31/01/2026" = String.mk (ddmm ++ '/' :: y))) :=
  claim_C5.1 "31/01/26" "31/01/2026" (by decide)

/-- C6: the money parser handles accounting parentheses (negation),
thousands dots and the decimal comma, and currency markers:
`(12,34) ↦ -12.34`, `1.234,56 ↦ 1234.56`, `R$ 12,34 ↦ 12.34`. -/
theorem claim_C6 :
    br_money_to_float "(12,34)" = some (-12.34 : ℚ) ∧
    br_money_to_float "1.234,56" = some (1234.56 : ℚ) ∧
    br_money_to_float "R$ 12,34" = some (12.34 : ℚ) := by
  refine ⟨?_, ?_, ?_⟩
  · have h : br_money_to_float "(12,34)" = some (-mkQ 1234 2) := rfl
    rw [h]
    norm_num [mkQ]
  · have h : br_money_to_float "1.234,56" = some (mkQ 123456 2) := rfl
    rw [h]
    norm_num [mkQ]
  · have h : br_money_to_float "R$ 12,34" = some (mkQ 1234 2) := rfl
    rw [h]
    norm_num [mkQ]

/-- C7: every emitted record comes from a non-empty normalized line on
which the keyword matcher and the amount extractor both succeeded (its
date may be the empty string); a keyword line without a parseable amount
and an empty or whitespace-only line yield no record. -/
theorem claim_C7 :
    (∀ (text : String) (page : Nat) (keywords : List String) (l : Lancamento),
      l ∈ extract_candidates_from_text text page keywords →
      ∃ raw, raw ∈ splitlines text ∧
        normalize_text raw ≠ "" ∧
        guess_app_from_line (normalize_text raw) keywords = some l.app ∧
        find_best_amount (normalize_text raw) = some l.valor ∧
        l.data = (find_best_date (normalize_text raw)).getD "") ∧
    guess_app_from_line "marketing text mentioning uber with no price" scenarioKws =
      some "UBER" ∧
    find_best_amount "marketing text mentioning uber with no price" = none ∧
    extract_candidates_from_text "marketing text mentioning uber with no price" 0
      scenarioKws = [] ∧
    (∀ (page : Nat) (keywords : List String),
      extract_candidates_from_text " \t " page keywords = []) ∧
    (∀ (page : Nat) (keywords : List String),
      extract_candidates_from_text "" page keywords = []) := by
  refine ⟨?_, rfl, rfl, rfl, fun page keywords => rfl, fun page keywords => rfl⟩
  intro text page keywords l hl
  obtain ⟨raw, h1, h2, h3, h4, h5, -, -⟩ := mem_extract hl
  exact ⟨raw, h1, h2, h3, h4, h5⟩

/-- C7 witness: the characterization applied to the record extracted from
a concrete one-line page. -/
theorem claim_C7_witness :
    ∃ raw, raw ∈ splitlines "05/03 UBER*TRIP 18,50" ∧
      normalize_text raw ≠ "" ∧
      guess_app_from_line (normalize_text raw) ["UBER"] =
        some (Lancamento.mk "UBER" "05/03" "05/03 UBER*TRIP 18,50" (mkQ 1850 2) 1).app ∧
      find_best_amount (normalize_text raw) =
        some (Lancamento.mk "UBER" "05/03" "05/03 UBER*TRIP 18,50" (mkQ 1850 2) 1).valor ∧
      (Lancamento.mk "UBER" "05/03" "05/03 UBER*TRIP 18,50" (mkQ 1850 2) 1).data =
        (find_best_date (normalize_text raw)).getD "" :=
  claim_C7.1 "05/03 UBER*TRIP 18,50" 0 ["UBER"]
    ⟨"UBER", "05/03", "05/03 UBER*TRIP 18,50", mkQ 1850 2, 1⟩
    (by rw [show extract_candidates_from_text "05/03 UBER*TRIP 18,50" 0 ["UBER"] =
          [⟨"UBER", "05/03", "05/03 UBER*TRIP 18,50", mkQ 1850 2, 1⟩] from rfl]
        exact List.Mem.head _)

/-- C8: the discarded description-cleanup makes the engine extensionally
equal to the simplified engine without it, and every record's description
is the full whitespace-normalized source line. -/
theorem claim_C8 :
    (∀ (text : String) (page : Nat) (keywords : List String),
      extract_candidates_from_text text page keywords =
        extract_simple text page keywords) ∧
    (∀ (text : String) (page : Nat) (keywords : List String) (l : Lancamento),
      l ∈ extract_candidates_from_text text page keywords →
      ∃ raw, raw ∈ splitlines text ∧ l.descricao = normalize_text raw) := by
  constructor
  · intro text page keywords
    rfl
  · intro text page keywords l hl
    obtain ⟨raw, h1, -, -, -, -, h6, -⟩ := mem_extract hl
    exact ⟨raw, h1, h6⟩

/-- C8 witness: the description of a concretely extracted record is its
normalized source line. -/
theorem claim_C8_witness :
    ∃ raw, raw ∈ splitlines "06/03 99POP 12,00" ∧
      (Lancamento.mk "99" "06/03" "06/03 99POP 12,00" (mkQ 1200 2) 1).descricao =
        normalize_text raw :=
  claim_C8.2 "06/03 99POP 12,00" 0 ["99"]
    ⟨"99", "06/03", "06/03 99POP 12,00", mkQ 1200 2, 1⟩
    (by rw [show extract_candidates_from_text "06/03 99POP 12,00" 0 ["99"] =
          [⟨"99", "06/03", "06/03 99POP 12,00", mkQ 1200 2, 1⟩] from rfl]
        exact List.Mem.head _)

/-- C9: `add_keyword` rejects an empty or whitespace-only term with the
`ValueError` (modelled as `Except.error`, no save), is a no-op without a
save when a case-insensitive duplicate of the (stripped) term is present,
and otherwise appends the stripped term at the end, preserving the
existing order, and saves. -/
theorem claim_C9 (kws : List String) (term : String) :
    (pystrip term = "" → add_keyword kws term = Except.error "Keyword vazia.") ∧
    (pystrip term ≠ "" → upperS (pystrip term) ∈ kws.map upperS →
      add_keyword kws term = Except.ok (kws, false)) ∧
    (pystrip term ≠ "" → upperS (pystrip term) ∉ kws.map upperS →
      add_keyword kws term = Except.ok (kws ++ [pystrip term], true)) := by
  refine ⟨?_, ?_, ?_⟩
  · intro h
    simp [add_keyword, h]
  · intro h hm
    simp [add_keyword, h, hm]
  · intro h hm
    simp [add_keyword, h, hm]

/-- C9 witness: adding a case-insensitive duplicate leaves the list
unchanged and performs no save. -/
theorem claim_C9_witness : add_keyword ["UBER"] " uber " = Except.ok (["UBER"], false) :=
  (claim_C9 ["UBER"] " uber ").2.1 (by decide) (by decide)

/-- C10 counterexample: removing the absent term `"99"` from `["UBER"]`
leaves the list unchanged yet still performs a save (flag `true`),
refuting "a write occurs only when the operation changes the list". -/
theorem claim_C10_counterexample :
    remove_keyword ["UBER"] "99" = Except.ok (["UBER"], true) := rfl

/-- C10 (amended): an add writes exactly when it changes the list, but a
remove with a non-empty term always writes the filtered list — even when
the term is absent and the list is unchanged. -/
theorem claim_C10 (kws : List String) (term : String) :
    (∀ (res : List String) (saved : Bool),
      add_keyword kws term = Except.ok (res, saved) → (saved = true ↔ res ≠ kws)) ∧
    (pystrip term ≠ "" →
      remove_keyword kws term =
        Except.ok (kws.filter fun x => upperS x != upperS (pystrip term), true)) := by
  constructor
  · intro res saved h
    simp only [add_keyword] at h
    split_ifs at h with h1 h2
    · simp only [Except.ok.injEq, Prod.mk.injEq] at h
      obtain ⟨rfl, rfl⟩ := h
      simp
    · simp only [Except.ok.injEq, Prod.mk.injEq] at h
      obtain ⟨rfl, rfl⟩ := h
      simp only [true_iff]
      intro heq
      have hlen := congrArg List.length heq
      simp at hlen
  · intro h
    simp [remove_keyword, h]

/-- C10 witness: the always-writes behaviour of remove at a concrete
absent term. -/
theorem claim_C10_witness :
    remove_keyword ["UBER"] "99" =
      Except.ok (["UBER"].filter fun x => upperS x != upperS (pystrip "99"), true) :=
  (claim_C10 ["UBER"] "99").2 (by decide)
